import Mathlib

/- Shallow embedding of the video upload pipeline of
   learn-file-storage-s3-golang-starter: handler_upload_video.go together
   with the shared getExtension helper from the thumbnail handler file.
   External collaborators (uuid parsing, JWT validation, the database, the
   filesystem, the ffmpeg/ffprobe subprocesses, the object store and the
   presigner) are modelled as an oracle environment; the side effects the
   handler performs are recorded as an explicit trace of events. -/

namespace Tubely

/-- The fields of database.Video that the upload handler reads or writes. -/
structure Video where
  id : String
  userID : String
  videoURL : Option String
  deriving DecidableEq

/-- One stream entry of the ffprobe JSON output (the fields the code reads). -/
structure FFStream where
  width : Int
  height : Int
  deriving DecidableEq

/-- Observable side effects of one request, in program order. -/
inductive Effect where
  | createFile (name : String)
  | removeFile (name : String)
  | ffmpegRun
  | ffprobeRun
  | s3Put (bucket : String) (key : String)
  | dbUpdate (v : Video)
  deriving DecidableEq

/-- The handler outcome: an error response (respondWithError with its HTTP
status and message), a success response (respondWithJSON of the signed
record), or a Go runtime panic. -/
inductive HandlerResult where
  | err (status : Nat) (msg : String)
  | ok (v : Video)
  | panic
  deriving DecidableEq

/-- Outcome of getVideoAspectRatio: a label, an error, or a panic (the Go
code indexes Streams[0] without a length check, so an empty stream list is
an index-out-of-range panic, not an error return). -/
inductive ProbeResult where
  | ok (label : String)
  | err
  | panic
  deriving DecidableEq

/-- Outcome of dbVideoToSignedVideo: a record, an error, or a panic (the Go
code indexes params[1] of strings.Split without a length check). -/
inductive SignResult where
  | ok (v : Video)
  | err
  | panic
  deriving DecidableEq

/-- Oracle environment: one request together with the outcomes of every
external collaborator call the handler can make. -/
structure Env where
  parseUUIDOk : Bool
  bearerToken : Option String
  jwtUserID : Option String
  getVideo : Option Video
  bodyLen : Nat
  formFileOk : Bool
  parsedMediaType : Option String
  createTempOk : Bool
  tempName : String
  copyOk : Bool
  seekOk : Bool
  ffmpegRunOk : Bool
  ffmpegPartialOutput : Bool
  openFastOk : Bool
  ffprobeRunOk : Bool
  ffprobeStreams : Option (List FFStream)
  randomBytes : Fin 32 → Nat
  putObjectOk : Bool
  updateVideoOk : Bool
  presign : String → String → Nat → Option String
  s3Bucket : String

/-- time.Minute in nanoseconds (Go time.Duration is a count of ns). -/
def minuteNs : Nat := 60000000000

/-- The fixed presign expiry the code passes: 10*time.Minute. -/
def ttlNs : Nat := 10 * minuteNs

/-- The request body cap installed via http.MaxBytesReader: 1 << 30. -/
def maxUploadBytes : Nat := 1 <<< 30

/-- getExtension from the thumbnail handler file: a fixed lookup table over
declared content types, with generic fallback "bin". -/
def getExtension (contentType : String) : String :=
  if contentType = "image/jpeg" then "jpg"
  else if contentType = "image/png" then "png"
  else if contentType = "image/gif" then "gif"
  else if contentType = "image/webp" then "webp"
  else "bin"

/-- The base64 URL alphabet used by encoding/base64 RawURLEncoding. -/
def base64URLAlphabet : List Char :=
  "ABCDEFGHIJKLMNOPQRSTUVWXYZabcdefghijklmnopqrstuvwxyz0123456789-_".toList

/-- Character for a 6-bit group. -/
def b64Char (n : Nat) : Char := base64URLAlphabet.getD n 'A'

/-- base64.RawURLEncoding.EncodeToString, character list: groups of three
bytes become four characters; a two-byte remainder becomes three characters
and a one-byte remainder two characters; no padding is emitted. -/
def base64RawURLChars : List Nat → List Char
  | b1 :: b2 :: b3 :: rest =>
    b64Char (b1 / 4) :: b64Char (b1 % 4 * 16 + b2 / 16) ::
      b64Char (b2 % 16 * 4 + b3 / 64) :: b64Char (b3 % 64) ::
      base64RawURLChars rest
  | [b1, b2] => [b64Char (b1 / 4), b64Char (b1 % 4 * 16 + b2 / 16), b64Char (b2 % 16 * 4)]
  | [b1] => [b64Char (b1 / 4), b64Char (b1 % 4 * 16)]
  | [] => []

/-- base64.RawURLEncoding.EncodeToString. -/
def base64RawURLEncode (bs : List Nat) : String := String.mk (base64RawURLChars bs)

/-- strings.Split(s, ",") on character lists: acc is the current field read
so far, reversed. -/
def splitCharsOnComma : List Char → List Char → List (List Char)
  | [], acc => [acc.reverse]
  | c :: rest, acc =>
    if c = ',' then acc.reverse :: splitCharsOnComma rest []
    else splitCharsOnComma rest (c :: acc)

/-- strings.Split(s, ","). -/
def splitOnComma (s : String) : List String :=
  (splitCharsOnComma s.data []).map String.mk

/-- Floor of log2 on positive naturals, structurally recursive on a fuel
bound so the kernel can evaluate it (Nat.log2 is defined by well-founded
recursion and does not reduce during kernel evaluation). -/
def log2Fuel : Nat → Nat → Nat
  | 0, _ => 0
  | fuel + 1, n => if n ≤ 1 then 0 else log2Fuel fuel (n / 2) + 1

/-- Floor of log2 (junk value 0 at 0). -/
def nlog2 (n : Nat) : Nat := log2Fuel n n

lemma log2Fuel_spec : ∀ (fuel n : Nat), 1 ≤ n → n ≤ fuel →
    2 ^ log2Fuel fuel n ≤ n ∧ n < 2 ^ (log2Fuel fuel n + 1) := by
  intro fuel
  induction fuel with
  | zero =>
    intro n h1 h2
    omega
  | succ f ih =>
    intro n h1 h2
    by_cases hle : n ≤ 1
    · have : n = 1 := le_antisymm hle h1
      subst this
      simp [log2Fuel]
    · have h2n : 2 ≤ n := by omega
      have hrec := ih (n / 2) (by omega) (by omega)
      simp only [log2Fuel, if_neg hle]
      constructor
      · calc 2 ^ (log2Fuel f (n / 2) + 1) = 2 ^ log2Fuel f (n / 2) * 2 := by ring
        _ ≤ n / 2 * 2 := by omega
        _ ≤ n := by omega
      · have := hrec.2
        calc n < 2 * (n / 2) + 2 := by omega
        _ ≤ 2 * 2 ^ (log2Fuel f (n / 2) + 1) := by omega
        _ = 2 ^ (log2Fuel f (n / 2) + 1 + 1) := by ring

lemma nlog2_spec (n : Nat) (h1 : 1 ≤ n) :
    2 ^ nlog2 n ≤ n ∧ n < 2 ^ (nlog2 n + 1) :=
  log2Fuel_spec n n h1 le_rfl

/-- A finite binary64 value m * 2^e, produced by the rounding routines with
a 53-bit significand.  Every value arising in the aspect-ratio computation
is finite and well inside the normal binary64 range (no overflow, underflow
or subnormal rounding), where this unbounded-exponent model agrees exactly
with IEEE binary64 round-to-nearest-even. -/
structure F64 where
  m : Int
  e : Int
  deriving DecidableEq

/-- The exact rational value of a finite float. -/
def toRatF (x : F64) : ℚ := (x.m : ℚ) * 2 ^ x.e

/-- Round a/b to the nearest integer, ties to even (callers pass b > 0). -/
def rnteInt (a b : Int) : Int :=
  let f := a / b
  let r := a % b
  if b < 2 * r then f + 1
  else if 2 * r < b then f
  else if f % 2 = 0 then f else f + 1

lemma rnteInt_close (a b : Int) (hb : 0 < b) :
    |((rnteInt a b : Int) : ℚ) - (a : ℚ) / (b : ℚ)| ≤ 1 / 2 := by
  have hsum : b * (a / b) + a % b = a := Int.ediv_add_emod a b
  have hr0 : 0 ≤ a % b := Int.emod_nonneg a (ne_of_gt hb)
  have hrb : a % b < b := Int.emod_lt_of_pos a hb
  have hbq : (0 : ℚ) < (b : ℚ) := by exact_mod_cast hb
  have key : (a : ℚ) / (b : ℚ) = ((a / b : Int) : ℚ) + ((a % b : Int) : ℚ) / (b : ℚ) := by
    field_simp
    have : ((a : ℚ)) = (b : ℚ) * ((a / b : Int) : ℚ) + ((a % b : Int) : ℚ) := by
      exact_mod_cast hsum.symm
    linarith [this]
  have hrq0 : (0 : ℚ) ≤ ((a % b : Int) : ℚ) := by exact_mod_cast hr0
  have hrqb : ((a % b : Int) : ℚ) < (b : ℚ) := by exact_mod_cast hrb
  unfold rnteInt
  by_cases h1 : b < 2 * (a % b)
  · have h1q : (b : ℚ) < 2 * ((a % b : Int) : ℚ) := by exact_mod_cast h1
    have hhalf : 1 / 2 < ((a % b : Int) : ℚ) / (b : ℚ) := by
      rw [div_lt_div_iff (by norm_num) hbq]
      linarith
    have hlt1 : ((a % b : Int) : ℚ) / (b : ℚ) < 1 := by
      rw [div_lt_one hbq]
      linarith
    simp only [if_pos h1]
    rw [key, abs_le]
    constructor
    · push_cast
      linarith
    · push_cast
      linarith
  · by_cases h2 : 2 * (a % b) < b
    · have h2q : 2 * ((a % b : Int) : ℚ) < (b : ℚ) := by exact_mod_cast h2
      have hhalf : ((a % b : Int) : ℚ) / (b : ℚ) < 1 / 2 := by
        rw [div_lt_div_iff hbq (by norm_num)]
        linarith
      have hge0 : (0 : ℚ) ≤ ((a % b : Int) : ℚ) / (b : ℚ) := by positivity
      simp only [if_neg h1, if_pos h2]
      rw [key, abs_le]
      constructor
      · linarith
      · linarith
    · have heq : 2 * (a % b) = b := by omega
      have heqq : ((a % b : Int) : ℚ) / (b : ℚ) = 1 / 2 := by
        have : (2 : ℚ) * ((a % b : Int) : ℚ) = (b : ℚ) := by exact_mod_cast heq
        rw [div_eq_iff (ne_of_gt hbq)]
        linarith
      simp only [if_neg h1, if_neg h2]
      by_cases h3 : (a / b) % 2 = 0
      · simp only [if_pos h3]
        rw [key, heqq, abs_le]
        constructor
        · linarith
        · linarith
      · simp only [if_neg h3]
        rw [key, heqq, abs_le]
        constructor
        · push_cast
          linarith
        · push_cast
          linarith

/-- The binary exponent of |a|/b for b > 0, a ≠ 0: the integer e with
2^e ≤ |a|/b < 2^(e+1). -/
def qexpAB (a b : Int) : Int :=
  let kd : Int := (nlog2 a.natAbs : Int) - (nlog2 b.natAbs : Int)
  if (if 0 ≤ kd then b * 2 ^ kd.toNat ≤ (a.natAbs : Int)
      else b ≤ (a.natAbs : Int) * 2 ^ (-kd).toNat) then kd else kd - 1

lemma zpow_toNat_eq (k : Int) (hk : 0 ≤ k) : ((2 : ℚ) ^ k.toNat : ℚ) = (2 : ℚ) ^ k := by
  rw [← zpow_natCast]
  congr 1
  exact Int.toNat_of_nonneg hk

lemma qexpAB_spec (a b : Int) (ha : a ≠ 0) (hb : 0 < b) :
    (2 : ℚ) ^ qexpAB a b ≤ |(a : ℚ)| / (b : ℚ) ∧
      |(a : ℚ)| / (b : ℚ) < 2 ^ (qexpAB a b + 1) := by
  have hA1 : 1 ≤ a.natAbs := by
    have := Int.natAbs_pos.mpr ha
    omega
  have hB1 : 1 ≤ b.natAbs := by
    have : b ≠ 0 := ne_of_gt hb
    have := Int.natAbs_pos.mpr this
    omega
  obtain ⟨hAlo, hAhi⟩ := nlog2_spec a.natAbs hA1
  obtain ⟨hBlo, hBhi⟩ := nlog2_spec b.natAbs hB1
  set la := nlog2 a.natAbs with hla
  set lb := nlog2 b.natAbs with hlb
  have hbq : (0 : ℚ) < (b : ℚ) := by exact_mod_cast hb
  have habs : |(a : ℚ)| = ((a.natAbs : Nat) : ℚ) := by
    rw [Int.cast_natAbs, Int.cast_abs]
  have hbnat : (b : ℚ) = ((b.natAbs : Nat) : ℚ) := by
    rw [show ((b.natAbs : Nat) : ℚ) = |(b : ℚ)| from by rw [Int.cast_natAbs, Int.cast_abs]]
    exact (abs_of_pos hbq).symm
  have hAloq : (2 : ℚ) ^ (la : Int) ≤ |(a : ℚ)| := by
    rw [habs]
    exact_mod_cast hAlo
  have hAhiq : |(a : ℚ)| < 2 ^ ((la : Int) + 1) := by
    rw [habs]
    exact_mod_cast hAhi
  have hBloq : (2 : ℚ) ^ (lb : Int) ≤ (b : ℚ) := by
    rw [hbnat]
    exact_mod_cast hBlo
  have hBhiq : (b : ℚ) < 2 ^ ((lb : Int) + 1) := by
    rw [hbnat]
    exact_mod_cast hBhi
  have hq_lo : (2 : ℚ) ^ ((la : Int) - (lb : Int) - 1) ≤ |(a : ℚ)| / (b : ℚ) := by
    rw [le_div_iff hbq]
    have step : (2 : ℚ) ^ ((la : Int) - (lb : Int) - 1) * (b : ℚ) < |(a : ℚ)| := by
      calc (2 : ℚ) ^ ((la : Int) - (lb : Int) - 1) * (b : ℚ)
          < 2 ^ ((la : Int) - (lb : Int) - 1) * 2 ^ ((lb : Int) + 1) := by
            apply mul_lt_mul_of_pos_left hBhiq
            positivity
        _ = 2 ^ (la : Int) := by
            rw [← zpow_add₀ (by norm_num : (2:ℚ) ≠ 0)]
            ring_nf
        _ ≤ |(a : ℚ)| := hAloq
    exact step.le
  have hq_hi : |(a : ℚ)| / (b : ℚ) < 2 ^ ((la : Int) - (lb : Int) + 1) := by
    rw [div_lt_iff hbq]
    calc |(a : ℚ)| < 2 ^ ((la : Int) + 1) := hAhiq
      _ = 2 ^ ((la : Int) - (lb : Int) + 1) * 2 ^ (lb : Int) := by
          rw [← zpow_add₀ (by norm_num : (2:ℚ) ≠ 0)]
          ring_nf
      _ ≤ 2 ^ ((la : Int) - (lb : Int) + 1) * (b : ℚ) := by
          apply mul_le_mul_of_nonneg_left hBloq
          positivity
  have hcond : (if 0 ≤ (la : Int) - (lb : Int) then
        b * 2 ^ ((la : Int) - (lb : Int)).toNat ≤ (a.natAbs : Int)
      else b ≤ (a.natAbs : Int) * 2 ^ (-((la : Int) - (lb : Int))).toNat) ↔
      (2 : ℚ) ^ ((la : Int) - (lb : Int)) ≤ |(a : ℚ)| / (b : ℚ) := by
    set kd : Int := (la : Int) - (lb : Int) with hkd
    by_cases hk : 0 ≤ kd
    · rw [if_pos hk, le_div_iff hbq]
      constructor
      · intro hc
        have hcq : (b : ℚ) * ((2 : ℚ) ^ kd.toNat) ≤ ((a.natAbs : Int) : ℚ) := by
          exact_mod_cast hc
        rw [zpow_toNat_eq kd hk] at hcq
        rw [habs]
        push_cast at hcq ⊢
        linarith
      · intro hc
        have hgoal : (b : ℚ) * ((2 : ℚ) ^ kd.toNat) ≤ ((a.natAbs : Int) : ℚ) := by
          rw [zpow_toNat_eq kd hk]
          rw [habs] at hc
          push_cast at hc ⊢
          linarith
        exact_mod_cast hgoal
    · rw [if_neg hk, le_div_iff hbq]
      have hkneg : 0 ≤ -kd := by omega
      have h2 : ((2 : ℚ) ^ (-kd).toNat) = (2 : ℚ) ^ (-kd) := zpow_toNat_eq (-kd) hkneg
      have hcancel : (2 : ℚ) ^ (-kd) * (2 : ℚ) ^ kd = 1 := by
        rw [← zpow_add₀ (by norm_num : (2:ℚ) ≠ 0)]
        simp
      have hiff : ∀ X : ℚ, ((2:ℚ) ^ kd * (b : ℚ) ≤ X ↔ (b : ℚ) ≤ X * (2:ℚ) ^ (-kd)) := by
        intro X
        constructor
        · intro hx
          have hm := mul_le_mul_of_nonneg_right hx
            (le_of_lt (by positivity : (0:ℚ) < (2:ℚ) ^ (-kd)))
          calc (b : ℚ) = (2:ℚ) ^ kd * (b : ℚ) * (2:ℚ) ^ (-kd) := by
                rw [mul_comm ((2:ℚ) ^ kd) (b : ℚ), mul_assoc,
                  mul_comm ((2:ℚ) ^ kd) ((2:ℚ) ^ (-kd)), hcancel, mul_one]
            _ ≤ X * (2:ℚ) ^ (-kd) := hm
        · intro hx
          have hm := mul_le_mul_of_nonneg_right hx
            (le_of_lt (by positivity : (0:ℚ) < (2:ℚ) ^ kd))
          calc (2:ℚ) ^ kd * (b : ℚ) = (b : ℚ) * (2:ℚ) ^ kd := by ring
            _ ≤ X * (2:ℚ) ^ (-kd) * (2:ℚ) ^ kd := hm
            _ = X := by rw [mul_assoc, hcancel, mul_one]
      rw [hiff |(a : ℚ)|, habs, ← h2]
      have hR : ((a.natAbs : Nat) : ℚ) * (2 : ℚ) ^ ((-kd).toNat) =
          (((a.natAbs : Int) * 2 ^ (-kd).toNat : Int) : ℚ) := by
        push_cast
        rw [← habs]
      rw [hR]
      exact Int.cast_le.symm
  unfold qexpAB
  simp only [← hla, ← hlb]
  by_cases hc : (if 0 ≤ (la : Int) - (lb : Int) then
      b * 2 ^ ((la : Int) - (lb : Int)).toNat ≤ (a.natAbs : Int)
    else b ≤ (a.natAbs : Int) * 2 ^ (-((la : Int) - (lb : Int))).toNat)
  · rw [if_pos hc]
    exact ⟨hcond.mp hc, hq_hi⟩
  · rw [if_neg hc]
    have hnot : ¬ ((2 : ℚ) ^ ((la : Int) - (lb : Int)) ≤ |(a : ℚ)| / (b : ℚ)) :=
      fun hx => hc (hcond.mpr hx)
    push_neg at hnot
    constructor
    · exact hq_lo
    · have heq : (la : Int) - (lb : Int) - 1 + 1 = (la : Int) - (lb : Int) := by ring
      rw [heq]
      exact hnot

/-- Round (a0/b0)*2^k to the nearest binary64 value (53-bit significand,
round to nearest, ties to even): the correctly-rounded result of an IEEE
operation whose exact value is (a0/b0)*2^k, for results in the normal
range.  Returns 0 when a0 = 0 (and under the unused b0 = 0 guard). -/
def roundScaled (a0 b0 : Int) (k : Int) : F64 :=
  if a0 = 0 ∨ b0 = 0 then ⟨0, 0⟩
  else
    let a := if b0 < 0 then -a0 else a0
    let b := if b0 < 0 then -b0 else b0
    let e := qexpAB a b
    let u := 52 - e
    let m := if 0 ≤ u then rnteInt (a * 2 ^ u.toNat) b
             else rnteInt a (b * 2 ^ (-u).toNat)
    ⟨m, e + k - 52⟩

lemma toRatF_zero : toRatF ⟨0, 0⟩ = 0 := by
  unfold toRatF
  simp

/-- The relative error of one correctly rounded operation: at most 2^-53. -/
lemma roundScaled_close (a0 b0 : Int) (k : Int) :
    |toRatF (roundScaled a0 b0 k) - ((a0 : ℚ) / (b0 : ℚ)) * 2 ^ k| ≤
      |((a0 : ℚ) / (b0 : ℚ)) * 2 ^ k| / 2 ^ 53 := by
  by_cases htriv : a0 = 0 ∨ b0 = 0
  · unfold roundScaled
    rw [if_pos htriv, toRatF_zero]
    rcases htriv with h | h <;> subst h <;> simp
  · push_neg at htriv
    obtain ⟨ha0, hb0⟩ := htriv
    unfold roundScaled
    rw [if_neg (by push_neg; exact ⟨ha0, hb0⟩)]
    set a : Int := if b0 < 0 then -a0 else a0 with hadef
    set b : Int := if b0 < 0 then -b0 else b0 with hbdef
    have ha : a ≠ 0 := by
      rw [hadef]
      split <;> simpa using ha0
    have hb : 0 < b := by
      rw [hbdef]
      split
      · omega
      · omega
    have hval : (a : ℚ) / (b : ℚ) = (a0 : ℚ) / (b0 : ℚ) := by
      rw [hadef, hbdef]
      by_cases hneg : b0 < 0
      · rw [if_pos hneg, if_pos hneg]
        push_cast
        rw [div_neg, neg_div, neg_neg]
      · rw [if_neg hneg, if_neg hneg]
    obtain ⟨hlo, hhi⟩ := qexpAB_spec a b ha hb
    set e : Int := qexpAB a b with hedef
    have hbq : (0 : ℚ) < (b : ℚ) := by exact_mod_cast hb
    have habdiv : |(a : ℚ) / (b : ℚ)| = |(a : ℚ)| / (b : ℚ) := by
      rw [abs_div, abs_of_pos hbq]
    -- the scaled value rounded by rnteInt, in both branches of u
    have hm : |((if 0 ≤ 52 - e then rnteInt (a * 2 ^ (52 - e).toNat) b
          else rnteInt a (b * 2 ^ (-(52 - e)).toNat) : Int) : ℚ) -
          ((a : ℚ) / (b : ℚ)) * 2 ^ (52 - e)| ≤ 1 / 2 := by
      by_cases hu : 0 ≤ 52 - e
      · rw [if_pos hu]
        have h1 := rnteInt_close (a * 2 ^ (52 - e).toNat) b hb
        have heq : ((a * 2 ^ (52 - e).toNat : Int) : ℚ) / (b : ℚ) =
            ((a : ℚ) / (b : ℚ)) * 2 ^ (52 - e) := by
          push_cast
          rw [← zpow_toNat_eq (52 - e) hu]
          ring
        rw [heq] at h1
        exact h1
      · rw [if_neg hu]
        have hupos : (0 : Int) < 2 ^ (-(52 - e)).toNat := by positivity
        have h1 := rnteInt_close a (b * 2 ^ (-(52 - e)).toNat) (by positivity)
        have heq : (a : ℚ) / ((b * 2 ^ (-(52 - e)).toNat : Int) : ℚ) =
            ((a : ℚ) / (b : ℚ)) * 2 ^ (52 - e) := by
          push_cast
          rw [zpow_toNat_eq (-(52 - e)) (by omega)]
          rw [div_mul_eq_div_div]
          rw [div_eq_mul_inv ((a : ℚ) / (b : ℚ)), ← zpow_neg]
          ring_nf
        rw [heq] at h1
        exact h1
    set mm : Int := (if 0 ≤ 52 - e then rnteInt (a * 2 ^ (52 - e).toNat) b
        else rnteInt a (b * 2 ^ (-(52 - e)).toNat)) with hmm
    show |toRatF ⟨mm, e + k - 52⟩ - ((a0 : ℚ) / (b0 : ℚ)) * 2 ^ k| ≤ _
    rw [← hval]
    unfold toRatF
    have hsplit : ((mm : ℚ)) * 2 ^ (e + k - 52) - ((a : ℚ) / (b : ℚ)) * 2 ^ k =
        ((mm : ℚ) - ((a : ℚ) / (b : ℚ)) * 2 ^ (52 - e)) * 2 ^ (e + k - 52) := by
      have : (2 : ℚ) ^ (52 - e) * 2 ^ (e + k - 52) = 2 ^ k := by
        rw [← zpow_add₀ (by norm_num : (2:ℚ) ≠ 0)]
        ring_nf
      calc ((mm : ℚ)) * 2 ^ (e + k - 52) - ((a : ℚ) / (b : ℚ)) * 2 ^ k
          = ((mm : ℚ)) * 2 ^ (e + k - 52) -
            ((a : ℚ) / (b : ℚ)) * (2 ^ (52 - e) * 2 ^ (e + k - 52)) := by rw [this]
        _ = ((mm : ℚ) - ((a : ℚ) / (b : ℚ)) * 2 ^ (52 - e)) * 2 ^ (e + k - 52) := by ring
    rw [hsplit, abs_mul, abs_of_pos (a := (2:ℚ) ^ (e + k - 52)) (by positivity)]
    have hstep : |(mm : ℚ) - ((a : ℚ) / (b : ℚ)) * 2 ^ (52 - e)| * 2 ^ (e + k - 52) ≤
        (1 / 2) * 2 ^ (e + k - 52) := by
      apply mul_le_mul_of_nonneg_right hm
      positivity
    apply le_trans hstep
    -- (1/2) * 2^(e+k-52) = 2^(e+k-53) ≤ |value| / 2^53 since 2^e ≤ |a/b|
    rw [abs_mul, abs_of_pos (a := (2:ℚ) ^ k) (by positivity), habdiv,
      le_div_iff (by positivity : (0:ℚ) < (2:ℚ) ^ (53:Nat))]
    have hpow : (1 / 2 : ℚ) * 2 ^ (e + k - 52) * 2 ^ (53 : Nat) = 2 ^ e * 2 ^ k := by
      rw [show ((2:ℚ) ^ (53 : Nat)) = (2:ℚ) ^ (53 : Int) from by
        rw [← zpow_natCast]
        norm_num]
      rw [mul_assoc, ← zpow_add₀ (by norm_num : (2:ℚ) ≠ 0),
        ← zpow_add₀ (by norm_num : (2:ℚ) ≠ 0)]
      have : (1 / 2 : ℚ) = 2 ^ (-1 : Int) := by norm_num
      rw [this, ← zpow_add₀ (by norm_num : (2:ℚ) ≠ 0)]
      ring_nf
    rw [hpow]
    apply mul_le_mul_of_nonneg_right hlo
    positivity

/-- IEEE comparison of finite floats: exact comparison of their values. -/
def fltF (x y : F64) : Bool :=
  if x.e ≤ y.e then decide (x.m < y.m * 2 ^ (y.e - x.e).toNat)
  else decide (x.m * 2 ^ (x.e - y.e).toNat < y.m)

lemma fltF_iff (x y : F64) : fltF x y = true ↔ toRatF x < toRatF y := by
  unfold fltF toRatF
  by_cases he : x.e ≤ y.e
  · rw [if_pos he, decide_eq_true_iff]
    have hkey : (y.m : ℚ) * 2 ^ y.e =
        ((y.m * 2 ^ (y.e - x.e).toNat : Int) : ℚ) * 2 ^ x.e := by
      push_cast
      rw [zpow_toNat_eq (y.e - x.e) (by omega), mul_assoc,
        ← zpow_add₀ (by norm_num : (2:ℚ) ≠ 0)]
      ring_nf
    rw [hkey]
    constructor
    · intro h
      apply mul_lt_mul_of_pos_right _ (by positivity : (0:ℚ) < (2:ℚ) ^ x.e)
      exact_mod_cast h
    · intro h
      have := (mul_lt_mul_right (by positivity : (0:ℚ) < (2:ℚ) ^ x.e)).mp h
      exact_mod_cast this
  · rw [if_neg he, decide_eq_true_iff]
    have hkey : (x.m : ℚ) * 2 ^ x.e =
        ((x.m * 2 ^ (x.e - y.e).toNat : Int) : ℚ) * 2 ^ y.e := by
      push_cast
      rw [zpow_toNat_eq (x.e - y.e) (by omega), mul_assoc,
        ← zpow_add₀ (by norm_num : (2:ℚ) ≠ 0)]
      ring_nf
    rw [hkey]
    constructor
    · intro h
      apply mul_lt_mul_of_pos_right _ (by positivity : (0:ℚ) < (2:ℚ) ^ y.e)
      exact_mod_cast h
    · intro h
      have := (mul_lt_mul_right (by positivity : (0:ℚ) < (2:ℚ) ^ y.e)).mp h
      exact_mod_cast this

/-- math.Abs on finite floats: exact. -/
def absF (x : F64) : F64 := ⟨(x.m.natAbs : Int), x.e⟩

lemma toRatF_absF (x : F64) : toRatF (absF x) = |toRatF x| := by
  unfold absF toRatF
  rw [abs_mul, abs_of_pos (a := (2:ℚ) ^ x.e) (by positivity)]
  congr 1
  push_cast
  rfl

/-- IEEE subtraction of finite floats: the exact difference, correctly
rounded. -/
def subF (x y : F64) : F64 :=
  if x.e ≤ y.e then roundScaled (x.m - y.m * 2 ^ (y.e - x.e).toNat) 1 x.e
  else roundScaled (x.m * 2 ^ (x.e - y.e).toNat - y.m) 1 y.e

lemma subF_close (x y : F64) :
    |toRatF (subF x y) - (toRatF x - toRatF y)| ≤ |toRatF x - toRatF y| / 2 ^ 53 := by
  unfold subF
  by_cases he : x.e ≤ y.e
  · rw [if_pos he]
    have h := roundScaled_close (x.m - y.m * 2 ^ (y.e - x.e).toNat) 1 x.e
    have heq : (((x.m - y.m * 2 ^ (y.e - x.e).toNat : Int) : ℚ) / ((1 : Int) : ℚ)) * 2 ^ x.e =
        toRatF x - toRatF y := by
      unfold toRatF
      push_cast
      rw [zpow_toNat_eq (y.e - x.e) (by omega)]
      rw [div_one, sub_mul, mul_assoc, ← zpow_add₀ (by norm_num : (2:ℚ) ≠ 0)]
      ring_nf
    rw [heq] at h
    exact h
  · rw [if_neg he]
    have h := roundScaled_close (x.m * 2 ^ (x.e - y.e).toNat - y.m) 1 y.e
    have heq : (((x.m * 2 ^ (x.e - y.e).toNat - y.m : Int) : ℚ) / ((1 : Int) : ℚ)) * 2 ^ y.e =
        toRatF x - toRatF y := by
      unfold toRatF
      push_cast
      rw [zpow_toNat_eq (x.e - y.e) (by omega)]
      rw [div_one, sub_mul, mul_assoc, ← zpow_add₀ (by norm_num : (2:ℚ) ≠ 0)]
      ring_nf
    rw [heq] at h
    exact h

/-- IEEE division of finite floats: the exact quotient, correctly rounded.
Division by zero (y.m = 0) is guarded by the caller (the height = 0 branch
of the classification). -/
def divF (x y : F64) : F64 := roundScaled x.m y.m (x.e - y.e)

lemma divF_close (x y : F64) (hy : y.m ≠ 0) :
    |toRatF (divF x y) - toRatF x / toRatF y| ≤ |toRatF x / toRatF y| / 2 ^ 53 := by
  unfold divF
  have h := roundScaled_close x.m y.m (x.e - y.e)
  have heq : ((x.m : ℚ) / (y.m : ℚ)) * 2 ^ (x.e - y.e) = toRatF x / toRatF y := by
    unfold toRatF
    have hym : ((y.m : ℚ)) ≠ 0 := by exact_mod_cast hy
    rw [zpow_sub₀ (by norm_num : (2:ℚ) ≠ 0)]
    field_simp
  rw [heq] at h
  exact h

/-- Conversion int → float64: round to nearest, ties to even. -/
def intToF (n : Int) : F64 := roundScaled n 1 0

lemma intToF_close (n : Int) :
    |toRatF (intToF n) - (n : ℚ)| ≤ |(n : ℚ)| / 2 ^ 53 := by
  have h := roundScaled_close n 1 0
  simpa using h

/-- The compile-time Go constant 16.0/9.0: the binary64 value nearest to
16/9. -/
def c169F : F64 := roundScaled 16 9 0

/-- The compile-time Go constant 9.0/16.0 (exactly representable). -/
def c916F : F64 := roundScaled 9 16 0

/-- The Go constant 0.001: the binary64 value nearest to 1/1000. -/
def eps1000F : F64 := roundScaled 1 1000 0

lemma c169F_close : |toRatF c169F - 16 / 9| ≤ (16 / 9) / 2 ^ 53 := by
  have h := roundScaled_close 16 9 0
  have : ((16 : Int) : ℚ) / ((9 : Int) : ℚ) * 2 ^ (0 : Int) = 16 / 9 := by norm_num
  rw [this] at h
  calc |toRatF c169F - 16 / 9| ≤ |(16 / 9 : ℚ)| / 2 ^ 53 := h
    _ = (16 / 9) / 2 ^ 53 := by
        rw [abs_of_pos (by norm_num : (0:ℚ) < 16 / 9)]

lemma c916F_close : |toRatF c916F - 9 / 16| ≤ (9 / 16) / 2 ^ 53 := by
  have h := roundScaled_close 9 16 0
  have : ((9 : Int) : ℚ) / ((16 : Int) : ℚ) * 2 ^ (0 : Int) = 9 / 16 := by norm_num
  rw [this] at h
  calc |toRatF c916F - 9 / 16| ≤ |(9 / 16 : ℚ)| / 2 ^ 53 := h
    _ = (9 / 16) / 2 ^ 53 := by
        rw [abs_of_pos (by norm_num : (0:ℚ) < 9 / 16)]

lemma eps1000F_close : |toRatF eps1000F - 1 / 1000| ≤ (1 / 1000) / 2 ^ 53 := by
  have h := roundScaled_close 1 1000 0
  have : ((1 : Int) : ℚ) / ((1000 : Int) : ℚ) * 2 ^ (0 : Int) = 1 / 1000 := by norm_num
  rw [this] at h
  calc |toRatF eps1000F - 1 / 1000| ≤ |(1 / 1000 : ℚ)| / 2 ^ 53 := h
    _ = (1 / 1000) / 2 ^ 53 := by
        rw [abs_of_pos (by norm_num : (0:ℚ) < 1 / 1000)]

/-- The ratio classification of getVideoAspectRatio, lines 186-194, with
faithful binary64 semantics: ratio := float64(width)/float64(height), then
the two Abs/epsilon comparisons, each operation correctly rounded
(round-to-nearest, ties to even); every value arising here is finite and
in the normal range, where the model agrees exactly with IEEE binary64.
When height = 0 the Go division yields +-Inf (or NaN for 0/0), both band
comparisons are then false and the code falls through to "other". -/
def ratioF (width height : Int) : F64 :=
  divF (intToF width) (intToF height)

def aspectRatioLabel (width height : Int) : String :=
  if height = 0 then "other"
  else if fltF (absF (subF (ratioF width height) c169F)) eps1000F then "landscape"
  else if fltF (absF (subF (ratioF width height) c916F)) eps1000F then "portrait"
  else "other"

/-- Perturbing numerator and denominator by relative 2^-53 perturbs the
quotient by at most relative 4*2^-53. -/
lemma div_perturb (w h A B : ℚ) (hh : h ≠ 0) (hB : B ≠ 0)
    (hA : |A - w| ≤ |w| / 2 ^ 53) (hBc : |B - h| ≤ |h| / 2 ^ 53) :
    |A / B - w / h| ≤ |w / h| * (4 / 2 ^ 53) := by
  by_cases hw : w = 0
  · subst hw
    have hA0 : A = 0 := by
      have : |A - 0| ≤ 0 := by simpa using hA
      have := abs_nonneg (A - 0)
      have hz : |A - 0| = 0 := le_antisymm (by simpa using hA) this
      simpa using abs_eq_zero.mp hz
    subst hA0
    simp
  · have hwabs : 0 < |w| := abs_pos.mpr hw
    have hhabs : 0 < |h| := abs_pos.mpr hh
    have hBabs : 0 < |B| := abs_pos.mpr hB
    have hBlow : |h| * (1 - 1 / 2 ^ 53) ≤ |B| := by
      have t1 : |h| - |B| ≤ |h - B| := abs_sub_abs_le_abs_sub h B
      have t2 : |h - B| = |B - h| := abs_sub_comm h B
      nlinarith [hBc]
    have hh2B : |h| ≤ 2 * |B| := by nlinarith [hBlow, hhabs]
    have hnum : |A * h - w * B| ≤ 2 * |w| * |h| / 2 ^ 53 := by
      have hid : A * h - w * B = (A - w) * h - w * (B - h) := by ring
      calc |A * h - w * B| = |(A - w) * h - w * (B - h)| := by rw [hid]
        _ ≤ |(A - w) * h| + |w * (B - h)| := abs_sub _ _
        _ = |A - w| * |h| + |w| * |B - h| := by rw [abs_mul, abs_mul]
        _ ≤ (|w| / 2 ^ 53) * |h| + |w| * (|h| / 2 ^ 53) := by
            apply add_le_add
            · exact mul_le_mul_of_nonneg_right hA (le_of_lt hhabs)
            · exact mul_le_mul_of_nonneg_left hBc (abs_nonneg w)
        _ = 2 * |w| * |h| / 2 ^ 53 := by ring
    rw [div_sub_div A w hB hh, mul_comm B w, abs_div]
    rw [div_le_iff (by positivity : (0:ℚ) < |B * h|)]
    rw [abs_mul, abs_div]
    have hgoal : |w| / |h| * (4 / 2 ^ 53) * (|B| * |h|) = 4 / 2 ^ 53 * |w| * |B| := by
      field_simp
      ring
    rw [hgoal]
    have hmono : 2 * |w| * |h| / 2 ^ 53 ≤ 4 / 2 ^ 53 * |w| * |B| := by
      have := mul_le_mul_of_nonneg_left hh2B
        (by positivity : (0:ℚ) ≤ 2 * |w| / 2 ^ 53)
      nlinarith [this]
    linarith [hnum, hmono]

/-- The computed float ratio is within relative 6*2^-53 of the exact rational
ratio (division perturbation of the two rounded operands plus the rounding of
the quotient itself). -/
lemma ratioF_close (w h : Int) (hh : h ≠ 0) :
    |toRatF (ratioF w h) - (w : ℚ) / (h : ℚ)| ≤
      |(w : ℚ) / (h : ℚ)| * (6 / 2 ^ 53) := by
  have hA := intToF_close w
  have hB := intToF_close h
  have hhq : ((h : ℚ)) ≠ 0 := Int.cast_ne_zero.mpr hh
  have hh1 : (1 : ℚ) ≤ |(h : ℚ)| := by
    rw [← Int.cast_abs]
    exact_mod_cast Int.one_le_abs hh
  have hBne : toRatF (intToF h) ≠ 0 := by
    intro h0
    rw [h0, zero_sub, abs_neg] at hB
    linarith
  have hBm : (intToF h).m ≠ 0 := by
    intro hm0
    apply hBne
    unfold toRatF
    rw [hm0]
    norm_num
  have hR := divF_close (intToF w) (intToF h) hBm
  have hpert := div_perturb (w : ℚ) (h : ℚ) (toRatF (intToF w)) (toRatF (intToF h))
    hhq hBne hA hB
  unfold ratioF
  have tri := abs_sub_le (toRatF (divF (intToF w) (intToF h)))
    (toRatF (intToF w) / toRatF (intToF h)) ((w : ℚ) / (h : ℚ))
  have hABle : |toRatF (intToF w) / toRatF (intToF h)| ≤
      |(w : ℚ) / (h : ℚ)| * (1 + 4 / 2 ^ 53) := by
    have t := abs_sub_abs_le_abs_sub (toRatF (intToF w) / toRatF (intToF h))
      ((w : ℚ) / (h : ℚ))
    linarith
  have hmul : |toRatF (intToF w) / toRatF (intToF h)| / 2 ^ 53 ≤
      |(w : ℚ) / (h : ℚ)| * (1 + 4 / 2 ^ 53) / 2 ^ 53 := by linarith
  linarith [abs_nonneg ((w : ℚ) / (h : ℚ))]

/-- If the exact ratio lies inside the band around the center by a margin of
2^-40, the float band test returns true.  Generic over a center constant c of
the program (16/9 or 9/16) represented by a correctly rounded cF. -/
lemma band_test_true (w h : Int) (c : ℚ) (cF : F64) (hh : h ≠ 0)
    (hc1 : 1 / 2 ≤ c) (hc2 : c ≤ 2)
    (hcF : |toRatF cF - c| ≤ c / 2 ^ 53)
    (hin : |(w : ℚ) / (h : ℚ) - c| ≤ 1 / 1000 - 1 / 2 ^ 40) :
    fltF (absF (subF (ratioF w h) cF)) eps1000F = true := by
  have hr := ratioF_close w h hh
  have hD := subF_close (ratioF w h) cF
  have hE := eps1000F_close
  rw [fltF_iff, toRatF_absF]
  set R := toRatF (ratioF w h) with hRdef
  set r := (w : ℚ) / (h : ℚ) with hrdef
  set C := toRatF cF with hCdef
  set D := toRatF (subF (ratioF w h) cF) with hDdef
  have hrle : |r| ≤ 4 := by
    have t := abs_sub_abs_le_abs_sub r c
    have habsc : |c| = c := abs_of_pos (by linarith)
    linarith
  have hRr : |R - r| ≤ 24 / 2 ^ 53 := by linarith [hr]
  have hRC : |R - C| ≤ 1 / 1000 - 1 / 2 ^ 41 := by
    have t1 := abs_sub_le R r C
    have t2 := abs_sub_le r c C
    have t3 : |c - C| = |C - c| := abs_sub_comm c C
    linarith
  have hDle : |D| ≤ |R - C| * (1 + 1 / 2 ^ 53) := by
    have t := abs_sub_abs_le_abs_sub D (R - C)
    linarith
  have hEge : 1 / 1000 - 1 / 1000 / 2 ^ 53 ≤ toRatF eps1000F := by
    have t := (abs_le.mp hE).1
    linarith
  linarith [abs_nonneg (R - C)]

/-- If the exact ratio lies outside the band around the center by a margin of
2^-40 (or the ratio is far from the band entirely), the float band test
returns false. -/
lemma band_test_false (w h : Int) (c : ℚ) (cF : F64) (hh : h ≠ 0)
    (hc1 : 1 / 2 ≤ c) (hc2 : c ≤ 2)
    (hcF : |toRatF cF - c| ≤ c / 2 ^ 53)
    (hout : 1 / 1000 + 1 / 2 ^ 40 ≤ |(w : ℚ) / (h : ℚ) - c|) :
    fltF (absF (subF (ratioF w h) cF)) eps1000F = false := by
  have hr := ratioF_close w h hh
  have hD := subF_close (ratioF w h) cF
  have hE := eps1000F_close
  rw [← Bool.not_eq_true, fltF_iff, toRatF_absF, not_lt]
  set R := toRatF (ratioF w h) with hRdef
  set r := (w : ℚ) / (h : ℚ) with hrdef
  set C := toRatF cF with hCdef
  set D := toRatF (subF (ratioF w h) cF) with hDdef
  have hDge : |R - C| * (1 - 1 / 2 ^ 53) ≤ |D| := by
    have t := abs_sub_abs_le_abs_sub (R - C) D
    have t2 : |R - C - D| = |D - (R - C)| := abs_sub_comm _ _
    linarith
  have hEle : toRatF eps1000F ≤ 1 / 1000 + 1 / 1000 / 2 ^ 53 := by
    have t := (abs_le.mp hE).2
    linarith
  by_cases hr4 : |r| ≤ 4
  · have hRr : |R - r| ≤ 24 / 2 ^ 53 := by linarith [hr]
    have hRC : 1 / 1000 + 1 / 2 ^ 41 ≤ |R - C| := by
      have u1 := abs_sub_le r R c
      have u2 := abs_sub_le R C c
      have u3 : |r - R| = |R - r| := abs_sub_comm r R
      linarith
    linarith
  · push_neg at hr4
    have habsc : |c| = c := abs_of_pos (by linarith)
    have hRC : (1 : ℚ) ≤ |R - C| := by
      have u1 := abs_sub_abs_le_abs_sub r c
      have u2 := abs_sub_le r R c
      have u3 := abs_sub_le R C c
      have u4 : |r - R| = |R - r| := abs_sub_comm r R
      linarith [hr]
    linarith

/-- getVideoAspectRatio given the oracle outcomes of the ffprobe run
(runOk: cmd.Run succeeded) and of json.Unmarshal on its stdout (streams:
none means malformed JSON).  Streams[0] on an empty list is a Go
index-out-of-range panic. -/
def getVideoAspectRatioResult (runOk : Bool) (streams : Option (List FFStream)) : ProbeResult :=
  if !runOk then .err
  else
    match streams with
    | none => .err
    | some [] => .panic
    | some (s :: _) => .ok (aspectRatioLabel s.width s.height)

/-- processVideoForFastStart: derives the output path and runs ffmpeg;
returns the output path on success, an error otherwise. -/
def processVideoForFastStart (ffmpegRunOk : Bool) (filepath : String) : Except Unit String :=
  let output_path := filepath ++ ".processing"
  if ffmpegRunOk then .ok output_path else .error ()

/-- dbVideoToSignedVideo: splits the stored "bucket,key" reference on commas
and replaces it by a presigned URL with the fixed 10-minute expiry.  The Go
code indexes params[0] and params[1]; with no comma in the URL that is a
panic. -/
def dbVideoToSignedVideo (presign : String → String → Nat → Option String)
    (video : Video) : SignResult :=
  match video.videoURL with
  | none => .ok video
  | some url =>
    match splitOnComma url with
    | bucket :: key :: _ =>
      match presign bucket key ttlNs with
      | none => .err
      | some u => .ok { video with videoURL := some u }
    | _ => .panic

/-- handlerUploadVideo: the full request pipeline of
handler_upload_video.go, returning the response outcome together with the
trace of side effects.  The deferred os.Remove calls registered at each
point are appended (in LIFO order) to the trace of every return that
happens after their registration; note the remove of the fast-start file is
registered only after os.Open of it succeeds, exactly as in the source. -/
def handlerUploadVideo (env : Env) : HandlerResult × List Effect :=
  if !env.parseUUIDOk then (.err 400 "Invalid ID", [])
  else
    match env.bearerToken with
    | none => (.err 401 "Couldn\x27t find JWT", [])
    | some _ =>
      match env.jwtUserID with
      | none => (.err 401 "Couldn\x27t validate JWT", [])
      | some userID =>
        match env.getVideo with
        | none => (.err 404 "Couldn\x27t get video", [])
        | some video =>
          if video.userID ≠ userID then
            (.err 401 "User not authorized to edit video", [])
          else if env.bodyLen > maxUploadBytes ∨ !env.formFileOk then
            (.err 400 "Couldn\x27t parse multipart form", [])
          else
            match env.parsedMediaType with
            | none => (.err 400 "Couldn\x27t parse media type", [])
            | some mediaType =>
              if mediaType ≠ "video/mp4" then
                (.err 400 "Unsupported file type", [])
              else if !env.createTempOk then
                (.err 500 "Couldn\x27t create temp file", [])
              else
                let tmp := env.tempName
                let eStage := [Effect.createFile tmp]
                if !env.copyOk then
                  (.err 500 "Couldn\x27t copy file", eStage ++ [Effect.removeFile tmp])
                else if !env.seekOk then
                  (.err 500 "Couldn\x27t seek file", eStage ++ [Effect.removeFile tmp])
                else
                  let eRemux := Effect.ffmpegRun ::
                    (if env.ffmpegRunOk ∨ env.ffmpegPartialOutput then
                      [Effect.createFile (tmp ++ ".processing")] else [])
                  match processVideoForFastStart env.ffmpegRunOk tmp with
                  | .error _ =>
                    (.err 500 "Couldn\x27t process video",
                      eStage ++ eRemux ++ [Effect.removeFile tmp])
                  | .ok fastStartTempFilepath =>
                    if !env.openFastOk then
                      (.err 500 "Couldn\x27t open fast start temp file",
                        eStage ++ eRemux ++ [Effect.removeFile tmp])
                    else
                      let defers := [Effect.removeFile fastStartTempFilepath,
                        Effect.removeFile tmp]
                      let eProbe := [Effect.ffprobeRun]
                      match getVideoAspectRatioResult env.ffprobeRunOk env.ffprobeStreams with
                      | .panic => (.panic, eStage ++ eRemux ++ eProbe ++ defers)
                      | .err =>
                        (.err 500 "Couldn\x27t get video aspect ratio",
                          eStage ++ eRemux ++ eProbe ++ defers)
                      | .ok aspectRatio =>
                        let randomString := base64RawURLEncode (List.ofFn env.randomBytes)
                        let extension := getExtension mediaType
                        let fileKey := aspectRatio ++ "/" ++ randomString ++ "." ++ extension
                        if !env.putObjectOk then
                          (.err 500 "Couldn\x27t upload file",
                            eStage ++ eRemux ++ eProbe ++ defers)
                        else
                          let ePut := [Effect.s3Put env.s3Bucket fileKey]
                          let videoURL := env.s3Bucket ++ "," ++ fileKey
                          let video' := { video with videoURL := some videoURL }
                          if !env.updateVideoOk then
                            (.err 500 "Couldn\x27t update video",
                              eStage ++ eRemux ++ eProbe ++ ePut ++ defers)
                          else
                            let eDb := [Effect.dbUpdate video']
                            match dbVideoToSignedVideo env.presign video' with
                            | .panic =>
                              (.panic, eStage ++ eRemux ++ eProbe ++ ePut ++ eDb ++ defers)
                            | .err =>
                              (.err 500 "Couldn\x27t sign video",
                                eStage ++ eRemux ++ eProbe ++ ePut ++ eDb ++ defers)
                            | .ok signed =>
                              (.ok signed,
                                eStage ++ eRemux ++ eProbe ++ ePut ++ eDb ++ defers)

/-- The record updates persisted by a trace (db.UpdateVideo calls that
succeeded). -/
def dbUpdates : List Effect → List Video
  | [] => []
  | .dbUpdate v :: tr => v :: dbUpdates tr
  | _ :: tr => dbUpdates tr

/-- The object-store writes of a trace. -/
def s3Puts : List Effect → List (String × String)
  | [] => []
  | .s3Put b k :: tr => (b, k) :: s3Puts tr
  | _ :: tr => s3Puts tr

/-- Replay one effect against the set (list) of files on disk. -/
def applyEffect (disk : List String) : Effect → List String
  | .createFile n => disk ++ [n]
  | .removeFile n => disk.filter (fun m => m ≠ n)
  | _ => disk

/-- The files still on disk after a trace, starting from an empty disk. -/
def leftoverFiles (tr : List Effect) : List String := tr.foldl applyEffect []

/-- HTTP status of an outcome, when it is an error response. -/
def statusOf : HandlerResult → Option Nat
  | .err s _ => some s
  | _ => none

/-- The classification is one of exactly three labels. -/
lemma aspectRatioLabel_cases (w h : Int) :
    aspectRatioLabel w h = "landscape" ∨ aspectRatioLabel w h = "portrait" ∨
      aspectRatioLabel w h = "other" := by
  unfold aspectRatioLabel
  split
  · exact Or.inr (Or.inr rfl)
  · split
    · exact Or.inl rfl
    · split
      · exact Or.inr (Or.inl rfl)
      · exact Or.inr (Or.inr rfl)

@[simp] lemma dbUpdates_append (l1 l2 : List Effect) :
    dbUpdates (l1 ++ l2) = dbUpdates l1 ++ dbUpdates l2 := by
  induction l1 with
  | nil => rfl
  | cons e tr ih => cases e <;> simp [dbUpdates, ih]

@[simp] lemma s3Puts_append (l1 l2 : List Effect) :
    s3Puts (l1 ++ l2) = s3Puts l1 ++ s3Puts l2 := by
  induction l1 with
  | nil => rfl
  | cons e tr ih => cases e <;> simp [s3Puts, ih]

/-- C2 (amended): classification by the float64 epsilon tests.  Whenever the
exact ratio w/h is at least 2^-40 away from the 0.001 band boundaries, the
float64 computation agrees with the exact-band reading: inside the 16/9 band
gives landscape, outside it but inside the 9/16 band gives portrait, outside
both gives other; and the three concrete examples hold. -/
theorem aspect_ratio_classification_float :
    (∀ w h : Int, h ≠ 0 →
      (|(w : ℚ) / (h : ℚ) - 16 / 9| ≤ 1 / 1000 - 1 / 2 ^ 40 →
        aspectRatioLabel w h = "landscape") ∧
      (1 / 1000 + 1 / 2 ^ 40 ≤ |(w : ℚ) / (h : ℚ) - 16 / 9| →
        |(w : ℚ) / (h : ℚ) - 9 / 16| ≤ 1 / 1000 - 1 / 2 ^ 40 →
        aspectRatioLabel w h = "portrait") ∧
      (1 / 1000 + 1 / 2 ^ 40 ≤ |(w : ℚ) / (h : ℚ) - 16 / 9| →
        1 / 1000 + 1 / 2 ^ 40 ≤ |(w : ℚ) / (h : ℚ) - 9 / 16| →
        aspectRatioLabel w h = "other")) ∧
    aspectRatioLabel 1920 1080 = "landscape" ∧
    aspectRatioLabel 1080 1920 = "portrait" ∧
    aspectRatioLabel 1000 1000 = "other" := by
  refine ⟨fun w h hh => ⟨?_, ?_, ?_⟩, by decide, by decide, by decide⟩
  · intro hin
    have ht := band_test_true w h (16 / 9) c169F hh (by norm_num) (by norm_num)
      c169F_close hin
    simp [aspectRatioLabel, hh, ht]
  · intro hout hin
    have hf := band_test_false w h (16 / 9) c169F hh (by norm_num) (by norm_num)
      c169F_close hout
    have ht := band_test_true w h (9 / 16) c916F hh (by norm_num) (by norm_num)
      c916F_close hin
    simp [aspectRatioLabel, hh, hf, ht]
  · intro h1 h2
    have hf1 := band_test_false w h (16 / 9) c169F hh (by norm_num) (by norm_num)
      c169F_close h1
    have hf2 := band_test_false w h (9 / 16) c916F hh (by norm_num) (by norm_num)
      c916F_close h2
    simp [aspectRatioLabel, hh, hf1, hf2]

/-- C2 counterexample to the claimed exact iff: at width 15991, height 9000 the
float64 computation classifies landscape although |w/h - 16/9| equals exactly
1/1000, which is not < 0.001; the claimed iff is false of the program. -/
theorem aspect_ratio_exact_iff_counterexample :
    aspectRatioLabel 15991 9000 = "landscape" ∧
    ¬ |(15991 : ℚ) / 9000 - 16 / 9| < 1 / 1000 := by
  constructor
  · decide
  · have he : |(15991 : ℚ) / 9000 - 16 / 9| = 1 / 1000 := by
      rw [show (15991 : ℚ) / 9000 - 16 / 9 = -(1 / 1000) from by norm_num, abs_neg]
      norm_num
    rw [he]
    norm_num

/-- Witness for C2: the interior-of-band implication applied at 1280x720. -/
theorem aspect_ratio_classification_float_witness :
    aspectRatioLabel 1280 720 = "landscape" :=
  (aspect_ratio_classification_float.1 1280 720 (by decide)).1 (by norm_num)

/-- Claim C3: an authenticated request by a non-owner is rejected with the
Forbidden outcome (the "User not authorized to edit video" response,
reported with status 401), after the record load and before any processing
or storage side effect: the effect trace is empty, so nothing is mutated. -/
theorem nonowner_rejected_no_side_effects (env : Env) (userID : String) (video : Video)
    (hu : env.parseUUIDOk = true)
    (ht : env.bearerToken.isSome = true)
    (hj : env.jwtUserID = some userID)
    (hv : env.getVideo = some video)
    (hne : video.userID ≠ userID) :
    handlerUploadVideo env = (.err 401 "User not authorized to edit video", []) := by
  obtain ⟨tok, htok⟩ := Option.isSome_iff_exists.mp ht
  unfold handlerUploadVideo
  simp [hu, htok, hj, hv, hne]

def envC3 : Env := {
  parseUUIDOk := true
  bearerToken := some "tok"
  jwtUserID := some "intruder"
  getVideo := some { id := "v1", userID := "owner", videoURL := none }
  bodyLen := 100
  formFileOk := true
  parsedMediaType := some "video/mp4"
  createTempOk := true
  tempName := "tmp"
  copyOk := true
  seekOk := true
  ffmpegRunOk := true
  ffmpegPartialOutput := false
  openFastOk := true
  ffprobeRunOk := true
  ffprobeStreams := some [{ width := 1920, height := 1080 }]
  randomBytes := fun _ => 0
  putObjectOk := true
  updateVideoOk := true
  presign := fun _ _ _ => some "signed-url"
  s3Bucket := "tube-bucket"
}

theorem nonowner_rejected_witness :
    handlerUploadVideo envC3 = (.err 401 "User not authorized to edit video", []) :=
  nonowner_rejected_no_side_effects envC3 "intruder"
    { id := "v1", userID := "owner", videoURL := none }
    rfl rfl rfl rfl (by decide)

/-- Claim C5: a declared media type other than video/mp4 is rejected with
the UnsupportedMediaType outcome (the "Unsupported file type" response)
before any temp file is created or any store write occurs: the effect
trace is empty.  The branch depends only on the declared (parsed) media
type, never on the content. -/
theorem unsupported_media_type_rejected (env : Env) (mt : String)
    (hu : env.parseUUIDOk = true)
    (ht : env.bearerToken.isSome = true)
    (hown : ∃ u video, env.jwtUserID = some u ∧ env.getVideo = some video ∧
      video.userID = u)
    (hlen : env.bodyLen ≤ maxUploadBytes)
    (hff : env.formFileOk = true)
    (hmt : env.parsedMediaType = some mt)
    (hne : mt ≠ "video/mp4") :
    handlerUploadVideo env = (.err 400 "Unsupported file type", []) := by
  obtain ⟨tok, htok⟩ := Option.isSome_iff_exists.mp ht
  obtain ⟨u, video, hj, hv, hon⟩ := hown
  have hb : ¬ (env.bodyLen > maxUploadBytes) := not_lt.mpr hlen
  unfold handlerUploadVideo
  simp [hu, htok, hj, hv, hon, hb, hff, hmt, hne]

def envC5 : Env := { envC3 with
  jwtUserID := some "owner"
  parsedMediaType := some "image/png"
}

theorem unsupported_media_type_witness :
    handlerUploadVideo envC5 = (.err 400 "Unsupported file type", []) :=
  unsupported_media_type_rejected envC5 "image/png" rfl rfl
    ⟨"owner", { id := "v1", userID := "owner", videoURL := none }, rfl, rfl, rfl⟩
    (by decide) rfl rfl (by decide)

/-- Claim C4 (amended): a request body larger than the 1 GiB cap makes the
multipart parse fail, and the handler rejects it with the 400-class
"Couldn\x27t parse multipart form" response (not a 413) with an empty
effect trace: no downstream step is attempted. -/
theorem oversized_body_rejected (env : Env)
    (hu : env.parseUUIDOk = true)
    (ht : env.bearerToken.isSome = true)
    (hown : ∃ u video, env.jwtUserID = some u ∧ env.getVideo = some video ∧
      video.userID = u)
    (hbig : env.bodyLen > maxUploadBytes) :
    handlerUploadVideo env = (.err 400 "Couldn\x27t parse multipart form", []) := by
  obtain ⟨tok, htok⟩ := Option.isSome_iff_exists.mp ht
  obtain ⟨u, video, hj, hv, hon⟩ := hown
  unfold handlerUploadVideo
  simp [hu, htok, hj, hv, hon, hbig]

def envC4 : Env := { envC3 with
  jwtUserID := some "owner"
  bodyLen := 1073741825
}

/-- Claim C4 counterexample: at a request whose body exceeds the 1 GiB cap
the handler responds with status 400 ("Couldn\x27t parse multipart form"),
not with the 413 class the claim states. -/
theorem oversized_body_status_counterexample :
    envC4.bodyLen > maxUploadBytes ∧
    statusOf (handlerUploadVideo envC4).1 = some 400 ∧
    statusOf (handlerUploadVideo envC4).1 ≠ some 413 := by decide

theorem oversized_body_witness :
    handlerUploadVideo envC4 = (.err 400 "Couldn\x27t parse multipart form", []) :=
  oversized_body_rejected envC4 rfl rfl
    ⟨"owner", { id := "v1", userID := "owner", videoURL := none }, rfl, rfl, rfl⟩
    (by decide)

/-- The object key derived at lines 113-117 for an upload whose first
probed stream is st: classification label, then the URL-safe encoding of
the 32 random bytes, then the extension looked up for the declared type. -/
def fileKeyOf (env : Env) (st : FFStream) : String :=
  aspectRatioLabel st.width st.height ++ "/" ++
    base64RawURLEncode (List.ofFn env.randomBytes) ++ "." ++ getExtension "video/mp4"

/-- Inversion of the success path: a 200 response pins down the loaded
record, a nonempty probed stream list, the declared type video/mp4, the
single object-store write, the single persisted record update, and the
signing step that produced the returned record. -/
lemma handler_success_inversion (env : Env) (v : Video)
    (h : (handlerUploadVideo env).1 = .ok v) :
    ∃ video st rest,
      env.getVideo = some video ∧
      env.ffprobeStreams = some (st :: rest) ∧
      env.parsedMediaType = some "video/mp4" ∧
      env.ffprobeRunOk = true ∧
      s3Puts (handlerUploadVideo env).2 = [(env.s3Bucket, fileKeyOf env st)] ∧
      dbUpdates (handlerUploadVideo env).2 =
        [{ video with videoURL := some (env.s3Bucket ++ "," ++ fileKeyOf env st) }] ∧
      dbVideoToSignedVideo env.presign
        { video with videoURL := some (env.s3Bucket ++ "," ++ fileKeyOf env st) } =
        .ok v := by
  cases h1 : env.parseUUIDOk
  · unfold handlerUploadVideo at h; simp [h1] at h
  rcases h2 : env.bearerToken with _ | tok
  · unfold handlerUploadVideo at h; simp [h1, h2] at h
  rcases h3 : env.jwtUserID with _ | userID
  · unfold handlerUploadVideo at h; simp [h1, h2, h3] at h
  rcases h4 : env.getVideo with _ | video
  · unfold handlerUploadVideo at h; simp [h1, h2, h3, h4] at h
  by_cases h5 : video.userID = userID
  swap
  · unfold handlerUploadVideo at h; simp [h1, h2, h3, h4, h5] at h
  by_cases h6 : env.bodyLen > maxUploadBytes
  · unfold handlerUploadVideo at h; simp [h1, h2, h3, h4, h5, h6] at h
  cases h7 : env.formFileOk
  · unfold handlerUploadVideo at h; simp [h1, h2, h3, h4, h5, h6, h7] at h
  rcases h8 : env.parsedMediaType with _ | mt
  · unfold handlerUploadVideo at h; simp [h1, h2, h3, h4, h5, h6, h7, h8] at h
  by_cases h9 : mt = "video/mp4"
  swap
  · unfold handlerUploadVideo at h; simp [h1, h2, h3, h4, h5, h6, h7, h8, h9] at h
  subst h9
  cases h10 : env.createTempOk
  · unfold handlerUploadVideo at h; simp [h1, h2, h3, h4, h5, h6, h7, h8, h10] at h
  cases h11 : env.copyOk
  · unfold handlerUploadVideo at h; simp [h1, h2, h3, h4, h5, h6, h7, h8, h10, h11] at h
  cases h12 : env.seekOk
  · unfold handlerUploadVideo at h
    simp [h1, h2, h3, h4, h5, h6, h7, h8, h10, h11, h12] at h
  cases h13 : env.ffmpegRunOk
  · unfold handlerUploadVideo at h
    simp [h1, h2, h3, h4, h5, h6, h7, h8, h10, h11, h12, h13,
      processVideoForFastStart] at h
  cases h14 : env.openFastOk
  · unfold handlerUploadVideo at h
    simp [h1, h2, h3, h4, h5, h6, h7, h8, h10, h11, h12, h13, h14,
      processVideoForFastStart] at h
  cases h15 : env.ffprobeRunOk
  · unfold handlerUploadVideo at h
    simp [h1, h2, h3, h4, h5, h6, h7, h8, h10, h11, h12, h13, h14, h15,
      processVideoForFastStart, getVideoAspectRatioResult] at h
  rcases h16 : env.ffprobeStreams with _ | ⟨_ | ⟨st, rest⟩⟩
  · unfold handlerUploadVideo at h
    simp [h1, h2, h3, h4, h5, h6, h7, h8, h10, h11, h12, h13, h14, h15, h16,
      processVideoForFastStart, getVideoAspectRatioResult] at h
  · unfold handlerUploadVideo at h
    simp [h1, h2, h3, h4, h5, h6, h7, h8, h10, h11, h12, h13, h14, h15, h16,
      processVideoForFastStart, getVideoAspectRatioResult] at h
  cases h17 : env.putObjectOk
  · unfold handlerUploadVideo at h
    simp [h1, h2, h3, h4, h5, h6, h7, h8, h10, h11, h12, h13, h14, h15, h16, h17,
      processVideoForFastStart, getVideoAspectRatioResult] at h
  cases h18 : env.updateVideoOk
  · unfold handlerUploadVideo at h
    simp [h1, h2, h3, h4, h5, h6, h7, h8, h10, h11, h12, h13, h14, h15, h16, h17, h18,
      processVideoForFastStart, getVideoAspectRatioResult] at h
  unfold handlerUploadVideo at h
  simp [h1, h2, h3, h4, h5, h6, h7, h8, h10, h11, h12, h13, h14, h15, h16, h17, h18,
    processVideoForFastStart, getVideoAspectRatioResult, -List.ofFn_succ] at h
  split at h
  · simp at h
  · simp at h
  · rename_i v' heq
    simp at h
    subst h
    refine ⟨video, st, rest, rfl, rfl, rfl, rfl, ?_, ?_, ?_⟩
    · unfold handlerUploadVideo
      simp [h1, h2, h3, h4, h5, h6, h7, h8, h10, h11, h12, h13, h14, h15, h16, h17, h18,
        processVideoForFastStart, getVideoAspectRatioResult, heq, fileKeyOf, s3Puts,
        -List.ofFn_succ]
    · unfold handlerUploadVideo
      simp [h1, h2, h3, h4, h5, h6, h7, h8, h10, h11, h12, h13, h14, h15, h16, h17, h18,
        processVideoForFastStart, getVideoAspectRatioResult, heq, fileKeyOf, dbUpdates,
        h5, -List.ofFn_succ]
    · simp only [fileKeyOf, h5]
      exact heq

/-- Claim C1 (amended): every failure response leaves no persisted record
update, except on the one path where db.UpdateVideo already succeeded and
only the subsequent presigned-URL generation failed: there the handler
reports the 500 "Couldn\x27t sign video" error although the record with
the new playback-location reference was already persisted. -/
theorem failure_persists_no_update_except_sign (env : Env)
    (h : ∃ s m, (handlerUploadVideo env).1 = .err s m) :
    dbUpdates (handlerUploadVideo env).2 = [] ∨
      (handlerUploadVideo env).1 = .err 500 "Couldn\x27t sign video" := by
  obtain ⟨s, m, h⟩ := h
  cases h1 : env.parseUUIDOk
  · left; unfold handlerUploadVideo; simp [h1, dbUpdates]
  rcases h2 : env.bearerToken with _ | tok
  · left; unfold handlerUploadVideo; simp [h1, h2, dbUpdates]
  rcases h3 : env.jwtUserID with _ | userID
  · left; unfold handlerUploadVideo; simp [h1, h2, h3, dbUpdates]
  rcases h4 : env.getVideo with _ | video
  · left; unfold handlerUploadVideo; simp [h1, h2, h3, h4, dbUpdates]
  by_cases h5 : video.userID = userID
  swap
  · left; unfold handlerUploadVideo; simp [h1, h2, h3, h4, h5, dbUpdates]
  by_cases h6 : env.bodyLen > maxUploadBytes
  · left; unfold handlerUploadVideo; simp [h1, h2, h3, h4, h5, h6, dbUpdates]
  cases h7 : env.formFileOk
  · left; unfold handlerUploadVideo; simp [h1, h2, h3, h4, h5, h6, h7, dbUpdates]
  rcases h8 : env.parsedMediaType with _ | mt
  · left; unfold handlerUploadVideo; simp [h1, h2, h3, h4, h5, h6, h7, h8, dbUpdates]
  by_cases h9 : mt = "video/mp4"
  swap
  · left; unfold handlerUploadVideo; simp [h1, h2, h3, h4, h5, h6, h7, h8, h9, dbUpdates]
  subst h9
  cases h10 : env.createTempOk
  · left; unfold handlerUploadVideo; simp [h1, h2, h3, h4, h5, h6, h7, h8, h10, dbUpdates]
  cases h11 : env.copyOk
  · left; unfold handlerUploadVideo; simp [h1, h2, h3, h4, h5, h6, h7, h8, h10, h11, dbUpdates]
  cases h12 : env.seekOk
  · left; unfold handlerUploadVideo
    simp [h1, h2, h3, h4, h5, h6, h7, h8, h10, h11, h12, dbUpdates]
  cases h13 : env.ffmpegRunOk
  · left; unfold handlerUploadVideo
    simp [h1, h2, h3, h4, h5, h6, h7, h8, h10, h11, h12, h13, dbUpdates,
      processVideoForFastStart]
    split <;> simp [dbUpdates]
  cases h14 : env.openFastOk
  · left; unfold handlerUploadVideo
    simp [h1, h2, h3, h4, h5, h6, h7, h8, h10, h11, h12, h13, h14, dbUpdates,
      processVideoForFastStart]
  cases h15 : env.ffprobeRunOk
  · left; unfold handlerUploadVideo
    simp [h1, h2, h3, h4, h5, h6, h7, h8, h10, h11, h12, h13, h14, h15, dbUpdates,
      processVideoForFastStart, getVideoAspectRatioResult]
  rcases h16 : env.ffprobeStreams with _ | ⟨_ | ⟨st, rest⟩⟩
  · left; unfold handlerUploadVideo
    simp [h1, h2, h3, h4, h5, h6, h7, h8, h10, h11, h12, h13, h14, h15, h16, dbUpdates,
      processVideoForFastStart, getVideoAspectRatioResult]
  · exfalso
    unfold handlerUploadVideo at h
    simp [h1, h2, h3, h4, h5, h6, h7, h8, h10, h11, h12, h13, h14, h15, h16,
      processVideoForFastStart, getVideoAspectRatioResult] at h
  cases h17 : env.putObjectOk
  · left; unfold handlerUploadVideo
    simp [h1, h2, h3, h4, h5, h6, h7, h8, h10, h11, h12, h13, h14, h15, h16, h17, dbUpdates,
      processVideoForFastStart, getVideoAspectRatioResult]
  cases h18 : env.updateVideoOk
  · left; unfold handlerUploadVideo
    simp [h1, h2, h3, h4, h5, h6, h7, h8, h10, h11, h12, h13, h14, h15, h16, h17, h18,
      dbUpdates, processVideoForFastStart, getVideoAspectRatioResult]
  unfold handlerUploadVideo at h ⊢
  simp [h1, h2, h3, h4, h5, h6, h7, h8, h10, h11, h12, h13, h14, h15, h16, h17, h18,
    processVideoForFastStart, getVideoAspectRatioResult, -List.ofFn_succ] at h ⊢
  split at h
  · simp at h
  · rename_i heq
    right
    simp [heq]
  · simp at h


def envC1 : Env := { envC3 with
  jwtUserID := some "owner"
  presign := fun _ _ _ => none
}

def envC1b : Env := { envC3 with
  jwtUserID := some "owner"
  updateVideoOk := false
}

/-- Claim C1 counterexample: when the record update succeeded and only the
presigning of the response URL fails, the handler returns a failure
response although a record mutation was already persisted. -/
theorem failure_mutation_counterexample :
    (handlerUploadVideo envC1).1 = .err 500 "Couldn\x27t sign video" ∧
    dbUpdates (handlerUploadVideo envC1).2 ≠ [] := by decide

theorem failure_no_update_witness :
    dbUpdates (handlerUploadVideo envC1b).2 = [] ∨
      (handlerUploadVideo envC1b).1 = .err 500 "Couldn\x27t sign video" :=
  failure_persists_no_update_except_sign envC1b
    ⟨500, "Couldn\x27t update video", by decide⟩

/-- Every emitted base64 character is in the URL alphabet. -/
lemma b64Char_mem (n : Nat) : b64Char n ∈ base64URLAlphabet := by
  unfold b64Char
  rw [List.getD_eq_get?]
  cases hg : base64URLAlphabet.get? n with
  | none => decide
  | some c =>
    simpa using List.get?_mem hg

/-- The encoder only emits characters of the URL alphabet (URL-safe and
padding-free output). -/
lemma base64Chars_subset (bs : List Nat) :
    ∀ c ∈ base64RawURLChars bs, c ∈ base64URLAlphabet := by
  induction bs using base64RawURLChars.induct with
  | case1 b1 b2 b3 rest ih =>
    intro c hc
    simp only [base64RawURLChars, List.mem_cons] at hc
    rcases hc with rfl | rfl | rfl | rfl | hc
    · exact b64Char_mem _
    · exact b64Char_mem _
    · exact b64Char_mem _
    · exact b64Char_mem _
    · exact ih c hc
  | case2 b1 b2 =>
    intro c hc
    simp only [base64RawURLChars, List.mem_cons] at hc
    rcases hc with rfl | rfl | rfl | hc
    · exact b64Char_mem _
    · exact b64Char_mem _
    · exact b64Char_mem _
    · exact absurd hc (by simp)
  | case3 b1 =>
    intro c hc
    simp only [base64RawURLChars, List.mem_cons] at hc
    rcases hc with rfl | rfl | hc
    · exact b64Char_mem _
    · exact b64Char_mem _
    · exact absurd hc (by simp)
  | case4 =>
    intro c hc
    simp [base64RawURLChars] at hc

/-- The encoder never emits a comma. -/
lemma base64_no_comma (bs : List Nat) : ',' ∉ base64RawURLChars bs := by
  intro hmem
  have hin := base64Chars_subset bs ',' hmem
  revert hin
  decide

/-- A comma-free character list is one whole field for the splitter. -/
lemma splitCharsOnComma_no_comma (l : List Char) (hl : ',' ∉ l) :
    ∀ acc, splitCharsOnComma l acc = [acc.reverse ++ l] := by
  induction l with
  | nil =>
    intro acc
    simp [splitCharsOnComma]
  | cons c rest ih =>
    intro acc
    have hc : ¬ (c = ',') := fun hceq => hl (hceq ▸ List.mem_cons_self c rest)
    simp only [splitCharsOnComma, if_neg hc]
    rw [ih (fun hm => hl (List.mem_cons_of_mem _ hm)) (c :: acc)]
    simp

/-- Splitting field ++ comma ++ field. -/
lemma splitCharsOnComma_pair (b k : List Char) (hb : ',' ∉ b) (hk : ',' ∉ k) :
    splitCharsOnComma (b ++ ',' :: k) [] = [b, k] := by
  suffices hgen : ∀ acc, ',' ∉ b → splitCharsOnComma (b ++ ',' :: k) acc =
      [acc.reverse ++ b, k] by
    simpa using hgen [] hb
  clear hb
  induction b with
  | nil =>
    intro acc _
    rw [List.nil_append]
    simp only [splitCharsOnComma, if_pos rfl]
    rw [splitCharsOnComma_no_comma k hk []]
    simp
  | cons c rest ih =>
    intro acc hb'
    have hc : ¬ (c = ',') := fun hceq => hb' (hceq ▸ List.mem_cons_self c rest)
    rw [List.cons_append]
    simp only [splitCharsOnComma, if_neg hc]
    rw [ih (c :: acc) (fun hm => hb' (List.mem_cons_of_mem _ hm))]
    simp

/-- strings.Split on "bucket,key" with comma-free parts. -/
lemma splitOnComma_pair (b k : String) (hb : ',' ∉ b.data) (hk : ',' ∉ k.data) :
    splitOnComma (b ++ "," ++ k) = [b, k] := by
  unfold splitOnComma
  have hdata : (b ++ "," ++ k).data = b.data ++ ',' :: k.data := by
    rw [String.data_append, String.data_append]
    simp [List.append_assoc]
  rw [hdata, splitCharsOnComma_pair b.data k.data hb hk]
  rfl

/-- The three labels are comma-free. -/
lemma label_no_comma (w h : Int) : ',' ∉ (aspectRatioLabel w h).data := by
  rcases aspectRatioLabel_cases w h with hl | hl | hl <;> rw [hl] <;> decide

/-- Appending comma-free strings is comma-free. -/
lemma no_comma_append (s t : String) (hs : ',' ∉ s.data) (ht : ',' ∉ t.data) :
    ',' ∉ (s ++ t).data := by
  intro hmem
  rw [String.data_append] at hmem
  rcases List.mem_append.mp hmem with hm | hm
  · exact hs hm
  · exact ht hm

/-- The derived object key contains no comma. -/
lemma fileKeyOf_no_comma (env : Env) (st : FFStream) :
    ',' ∉ (fileKeyOf env st).data := by
  unfold fileKeyOf
  refine no_comma_append _ _ (no_comma_append _ _ (no_comma_append _ _
    (no_comma_append _ _ (label_no_comma _ _) (by decide)) ?_) (by decide)) (by decide)
  intro hmem
  exact base64_no_comma (List.ofFn env.randomBytes) hmem

def envHappy : Env := { envC3 with jwtUserID := some "owner" }

/-- Claim C8: when the probing tool succeeds but its output is malformed
JSON the probe returns the error branch, but when it succeeds and reports
zero streams the Go code indexes Streams[0] out of range and panics instead
of returning an error: the "never crashes on an empty stream list" half of
the claim fails on the code. -/
theorem probe_zero_streams_panics :
    getVideoAspectRatioResult true none = .err ∧
    getVideoAspectRatioResult false none = .err ∧
    getVideoAspectRatioResult true (some []) = .panic := by decide

def envC7 : Env := { envC3 with
  jwtUserID := some "owner"
  openFastOk := false
}

/-- Claim C7: on the exit path where the remux succeeded but opening the
remuxed artifact fails, the handler returns with the remuxed temporary file
still on disk, because its deferred removal is registered only after the
open succeeds; the claimed invariant fails on this path. -/
theorem remux_artifact_leak :
    (handlerUploadVideo envC7).1 = .err 500 "Couldn\x27t open fast start temp file" ∧
    leftoverFiles (handlerUploadVideo envC7).2 = ["tmp.processing"] := by decide

/-- Claim C10: the extension lookup table contains only image types, so the
video/mp4 upload path falls through to the generic "bin" fallback, and on
every successful upload the published object key ends in ".bin". -/
theorem video_extension_is_bin (env : Env) (v : Video)
    (h : (handlerUploadVideo env).1 = .ok v) :
    getExtension "video/mp4" = "bin" ∧
    (∀ mt, getExtension mt = "bin" ∨
      mt ∈ ["image/jpeg", "image/png", "image/gif", "image/webp"]) ∧
    ∀ p ∈ s3Puts (handlerUploadVideo env).2, ∃ pre, p.2 = pre ++ ".bin" := by
  obtain ⟨video, st, rest, hv, hst, hmt, hrun, hput, hdb, hsign⟩ :=
    handler_success_inversion env v h
  refine ⟨rfl, ?_, ?_⟩
  · intro mt
    unfold getExtension
    by_cases e1 : mt = "image/jpeg"
    · right; simp [e1]
    by_cases e2 : mt = "image/png"
    · right; simp [e2]
    by_cases e3 : mt = "image/gif"
    · right; simp [e3]
    by_cases e4 : mt = "image/webp"
    · right; simp [e4]
    left
    simp [e1, e2, e3, e4]
  · intro p hp
    rw [hput] at hp
    simp only [List.mem_singleton] at hp
    subst hp
    refine ⟨aspectRatioLabel st.width st.height ++ "/" ++
      base64RawURLEncode (List.ofFn env.randomBytes), ?_⟩
    unfold fileKeyOf
    dsimp only
    rw [show getExtension "video/mp4" = "bin" from rfl]
    apply String.ext
    simp [String.data_append, List.append_assoc]

def envC10 : Env := { envC3 with jwtUserID := some "owner" }

theorem video_extension_witness :
    getExtension "video/mp4" = "bin" ∧
    (∀ mt, getExtension mt = "bin" ∨
      mt ∈ ["image/jpeg", "image/png", "image/gif", "image/webp"]) ∧
    ∀ p ∈ s3Puts (handlerUploadVideo envC10).2, ∃ pre, p.2 = pre ++ ".bin" :=
  video_extension_is_bin envC10
    { id := "v1", userID := "owner", videoURL := some "signed-url" } (by decide)

/-- Claim C6: every successful upload publishes exactly one object whose
key is "{label}/{randomID}.{extension}", where the label is the probe
classification of the first stream and one of exactly the three values,
and the random identifier is the URL-safe, padding-free base64 encoding of
the 32 oracle-provided random bytes. -/
theorem object_key_structure (env : Env) (v : Video)
    (h : (handlerUploadVideo env).1 = .ok v) :
    ∃ st rest label,
      env.ffprobeStreams = some (st :: rest) ∧
      getVideoAspectRatioResult env.ffprobeRunOk env.ffprobeStreams = .ok label ∧
      (label = "landscape" ∨ label = "portrait" ∨ label = "other") ∧
      s3Puts (handlerUploadVideo env).2 =
        [(env.s3Bucket,
          label ++ "/" ++ base64RawURLEncode (List.ofFn env.randomBytes) ++ "." ++
            getExtension "video/mp4")] ∧
      (List.ofFn env.randomBytes).length = 32 ∧
      (∀ c ∈ (base64RawURLEncode (List.ofFn env.randomBytes)).data,
        c ∈ base64URLAlphabet) ∧
      '=' ∉ (base64RawURLEncode (List.ofFn env.randomBytes)).data := by
  obtain ⟨video, st, rest, hv, hst, hmt, hrun, hput, hdb, hsign⟩ :=
    handler_success_inversion env v h
  refine ⟨st, rest, aspectRatioLabel st.width st.height, hst, ?_,
    aspectRatioLabel_cases _ _, ?_, by simp, ?_, ?_⟩
  · rw [hst, hrun]
    simp [getVideoAspectRatioResult]
  · rw [hput]
    rfl
  · intro c hc
    exact base64Chars_subset (List.ofFn env.randomBytes) c hc
  · intro hmem
    have hin := base64Chars_subset (List.ofFn env.randomBytes) '=' hmem
    revert hin
    decide

theorem object_key_witness :
    ∃ st rest label,
      envHappy.ffprobeStreams = some (st :: rest) ∧
      getVideoAspectRatioResult envHappy.ffprobeRunOk envHappy.ffprobeStreams =
        .ok label ∧
      (label = "landscape" ∨ label = "portrait" ∨ label = "other") ∧
      s3Puts (handlerUploadVideo envHappy).2 =
        [(envHappy.s3Bucket,
          label ++ "/" ++ base64RawURLEncode (List.ofFn envHappy.randomBytes) ++ "." ++
            getExtension "video/mp4")] ∧
      (List.ofFn envHappy.randomBytes).length = 32 ∧
      (∀ c ∈ (base64RawURLEncode (List.ofFn envHappy.randomBytes)).data,
        c ∈ base64URLAlphabet) ∧
      '=' ∉ (base64RawURLEncode (List.ofFn envHappy.randomBytes)).data :=
  object_key_structure envHappy
    { id := "v1", userID := "owner", videoURL := some "signed-url" } (by decide)

/-- Claim C9: on every successful upload the persisted record's location
field is the single comma-joined string "bucket,key" (not a URL), and the
record returned to the client instead carries the presigned URL that the
presigner produced for exactly that bucket and key with the fixed
10-minute expiry. -/
theorem persisted_reference_and_signed_url (env : Env) (v : Video)
    (h : (handlerUploadVideo env).1 = .ok v)
    (hb : ',' ∉ env.s3Bucket.data) :
    ∃ video0 key,
      env.getVideo = some video0 ∧
      ',' ∉ key.data ∧
      dbUpdates (handlerUploadVideo env).2 =
        [{ video0 with videoURL := some (env.s3Bucket ++ "," ++ key) }] ∧
      s3Puts (handlerUploadVideo env).2 = [(env.s3Bucket, key)] ∧
      env.presign env.s3Bucket key ttlNs = v.videoURL ∧
      ttlNs = 10 * minuteNs := by
  obtain ⟨video, st, rest, hv, hst, hmt, hrun, hput, hdb, hsign⟩ :=
    handler_success_inversion env v h
  refine ⟨video, fileKeyOf env st, hv, fileKeyOf_no_comma env st, hdb, hput, ?_, rfl⟩
  unfold dbVideoToSignedVideo at hsign
  simp only at hsign
  rw [splitOnComma_pair env.s3Bucket (fileKeyOf env st) hb
    (fileKeyOf_no_comma env st)] at hsign
  dsimp only at hsign
  rcases hp : env.presign env.s3Bucket (fileKeyOf env st) ttlNs with _ | u
  · rw [hp] at hsign
    simp at hsign
  · rw [hp] at hsign
    simp only at hsign
    injection hsign with hsv
    rw [← hsv]

def envC9 : Env := { envC3 with jwtUserID := some "owner" }

theorem persisted_reference_witness :
    ∃ video0 key,
      envC9.getVideo = some video0 ∧
      ',' ∉ key.data ∧
      dbUpdates (handlerUploadVideo envC9).2 =
        [{ video0 with videoURL := some (envC9.s3Bucket ++ "," ++ key) }] ∧
      s3Puts (handlerUploadVideo envC9).2 = [(envC9.s3Bucket, key)] ∧
      envC9.presign envC9.s3Bucket key ttlNs =
        ({ id := "v1", userID := "owner", videoURL := some "signed-url" } : Video).videoURL ∧
      ttlNs = 10 * minuteNs :=
  persisted_reference_and_signed_url envC9
    { id := "v1", userID := "owner", videoURL := some "signed-url" }
    (by decide) (by decide)

end Tubely
